import Mathlib

/-!
Verification of the NDT transcript post-processing engine
(`postprocessing.js`): the end-of-turn classifier `determineEOT`, the
timestamp formatter, and the turn-assembly pipeline `PostProcess.json`
with its paragraph fallback `jsonScriptFromParagraphs`.

Strings are modelled as `List Char`.  JavaScript numbers are modelled as
`Rat` (the inputs relevant here are finite decimal times and small
integer labels; NaN/Infinity corner cases are outside every claim).
Regular-expression `test` calls are modelled by their search semantics:
a match exists at some position iff some suffix of the subject matches
the (end-anchored) pattern.
-/

/-- Whitespace recognized by JavaScript `String.prototype.trim` and by the
regex class `\s` (both use the same WhiteSpace/LineTerminator set). -/
def isWs (c : Char) : Bool :=
  c == ' ' || c == '\t' || c == '\n' || c == '\r' ||
  c == '\u000B' || c == '\u000C' || c == '\u00A0' || c == '\uFEFF' ||
  c == '\u1680' || ('\u2000' ≤ c && c ≤ '\u200A') ||
  c == '\u2028' || c == '\u2029' || c == '\u202F' ||
  c == '\u205F' || c == '\u3000'

/-- Characters of the regex class `["']`. -/
def isQuoteChar (c : Char) : Bool :=
  c == '"' || c == '\''

/-- Characters of the regex class `[\s"']` (trailing characters allowed
after terminal punctuation). -/
def termTailChar (c : Char) : Bool :=
  isWs c || isQuoteChar c

/-- The terminal punctuation class `[.!?]`. -/
def isTermPunct (c : Char) : Bool :=
  c == '.' || c == '!' || c == '?'

/-- Characters of the regex class `[,\s]` (trailing characters allowed
after a continuation phrase). -/
def contTailChar (c : Char) : Bool :=
  c == ',' || isWs c

/-- The regex word-character class `\w` = `[A-Za-z0-9_]`, used by the
word-boundary assertion. -/
def isWordChar (c : Char) : Bool :=
  ('a' ≤ c && c ≤ 'z') || ('A' ≤ c && c ≤ 'Z') ||
  ('0' ≤ c && c ≤ '9') || c == '_'

/-- ASCII lowering, the canonicalization performed by a case-insensitive
regex on the letters occurring in the patterns of `determineEOT`. -/
def jsLower (c : Char) : Char :=
  if 'A' ≤ c && c ≤ 'Z' then Char.ofNat (c.toNat + 32) else c

/-- Lowercase an entire string. -/
def lowerList (t : List Char) : List Char :=
  t.map jsLower

/-- JavaScript `String.prototype.trim`: strip whitespace at both ends. -/
def jsTrim (s : List Char) : List Char :=
  ((s.dropWhile isWs).reverse.dropWhile isWs).reverse

/-- `/[.!?][\s"']*$/.test t`: some suffix of `t` consists of a terminal
punctuation character followed only by quote/whitespace characters. -/
def testTermPunct (t : List Char) : Bool :=
  t.tails.any fun s =>
    match s with
    | [] => false
    | c :: rest => isTermPunct c && rest.all termTailChar

/-- The mojibake "ellipsis" of the first `determineEOT` snapshot
(`postprocessing.js` line 24): the UTF-8 bytes of the ellipsis glyph
decoded as Latin-1. -/
def ellipsisMoji : List Char :=
  ['â', '€', '¦']

/-- `/\.{3}$|â€¦$/.test t` (first snapshot of `determineEOT`). -/
def testEllipsisA (t : List Char) : Bool :=
  ['.', '.', '.'].isSuffixOf t || ellipsisMoji.isSuffixOf t

/-- `/\.{3}$|…$/.test t` (second snapshot, `postprocessing.js` line 319). -/
def testEllipsisB (t : List Char) : Bool :=
  ['.', '.', '.'].isSuffixOf t || ['…'].isSuffixOf t

/-- The fixed list of continuation phrases of `determineEOT`. -/
def continuationPhrases : List (List Char) :=
  ["um".toList, "uh".toList, "like".toList, "you know".toList,
   "i mean".toList, "so".toList, "and then".toList, "but".toList,
   "or".toList, "because".toList, "however".toList, "although".toList,
   "therefore".toList]

/-- `new RegExp(phrase ++ "[,\\s]*$", i-flag).test t`: some suffix of the
lowered subject starts with the (lowercase) phrase and continues with
comma/whitespace characters only.  (The pattern has no word-boundary
assertion, so the phrase may be the tail of a longer word.) -/
def testEndsWithPhrase (phrase t : List Char) : Bool :=
  (lowerList t).tails.any fun s =>
    phrase.isPrefixOf s && (s.drop phrase.length).all contTailChar

/-- `continuationPhrases.some (phrase => regex.test(trimmed))`. -/
def testContinuation (t : List Char) : Bool :=
  continuationPhrases.any fun p => testEndsWithPhrase p t

/-- The fixed list of question-starter words of `determineEOT`. -/
def questionStarters : List (List Char) :=
  ["what".toList, "who".toList, "where".toList, "when".toList,
   "why".toList, "how".toList, "is".toList, "are".toList, "do".toList,
   "does".toList, "did".toList, "can".toList, "could".toList,
   "would".toList, "should".toList]

/-- `new RegExp("^" ++ starter ++ "\\b", i-flag).test t`: the lowered
subject starts with the starter word, followed by end-of-string or a
non-word character (all starters end in a word character, so `\b` there
is exactly that condition). -/
def testStarter (starter t : List Char) : Bool :=
  starter.isPrefixOf (lowerList t) &&
    (match (lowerList t).drop starter.length with
     | [] => true
     | c :: _ => !isWordChar c)

/-- `questionStarters.some (starter => regex.test(trimmed))`. -/
def testStartsWithQuestion (t : List Char) : Bool :=
  questionStarters.any fun s => testStarter s t

/-- `determineEOT` as in the first snapshot (`postprocessing.js`
lines 14-91; ellipsis regex with the mojibake sequence).  The guard
`!text || text.trim().length === 0` is, for strings, exactly "the
trimmed text is empty". -/
def determineEOT (text : List Char) : Bool :=
  if (jsTrim text).isEmpty then true
  else
    testTermPunct (jsTrim text) &&
    !testContinuation (jsTrim text) &&
    !(testStartsWithQuestion (jsTrim text) && !text.contains '?') &&
    !testEllipsisA (jsTrim text)

/-- `determineEOT` as in the second snapshot (`postprocessing.js`
lines 312-373; ellipsis regex with the true ellipsis glyph). -/
def determineEOT2 (text : List Char) : Bool :=
  if (jsTrim text).isEmpty then true
  else
    testTermPunct (jsTrim text) &&
    !testContinuation (jsTrim text) &&
    !(testStartsWithQuestion (jsTrim text) && !text.contains '?') &&
    !testEllipsisB (jsTrim text)

/-- Spec-side reading of the terminal-punctuation test: the text splits as
a prefix, one of `. ! ?`, and a run of quote/whitespace characters
reaching the end of the string. -/
def SpecTermPunct (t : List Char) : Prop :=
  ∃ pre c suf, t = pre ++ c :: suf ∧ isTermPunct c = true ∧
    ∀ x ∈ suf, termTailChar x = true

/-- Spec-side reading of the (first snapshot) ellipsis test: the text ends
with three periods or with the mojibake sequence. -/
def SpecEllipsisMoji (t : List Char) : Prop :=
  ['.', '.', '.'] <:+ t ∨ ellipsisMoji <:+ t

/-- Spec-side reading of the continuation test: the lowered text ends with
one of the fixed discourse markers, optionally followed by commas and/or
whitespace up to the end of the string. -/
def SpecContinuation (t : List Char) : Prop :=
  ∃ p ∈ continuationPhrases, ∃ pre suf,
    lowerList t = pre ++ p ++ suf ∧ ∀ x ∈ suf, contTailChar x = true

/-- Spec-side reading of the unmarked-question test: the trimmed text
starts with a question-starter word as a whole leading word, and the text
contains no question mark anywhere. -/
def SpecUnmarkedQuestion (text : List Char) : Prop :=
  (∃ st ∈ questionStarters, ∃ rest, lowerList (jsTrim text) = st ++ rest ∧
    (rest = [] ∨ ∃ c rest2, rest = c :: rest2 ∧ isWordChar c = false)) ∧
  '?' ∉ text

/-- Fuel-driven decimal printer (the fuel argument only makes the
recursion structural; `natChars` supplies enough fuel). -/
def natCharsAux : Nat → Nat → List Char
  | 0, _ => []
  | fuel + 1, n =>
    if n < 10 then [Nat.digitChar n]
    else natCharsAux fuel (n / 10) ++ [Nat.digitChar (n % 10)]

/-- Decimal representation of a natural number, as JavaScript prints an
integral number value inside a template literal or via `toString`. -/
def natChars (n : Nat) : List Char :=
  natCharsAux (n + 1) n

/-- Decimal representation of an integer. -/
def intChars (i : Int) : List Char :=
  if i < 0 then '-' :: natChars i.natAbs else natChars i.toNat

/-- Numeric value of a decimal digit character. -/
def digitVal (c : Char) : Nat :=
  c.toNat - 48

/-- Value of a decimal digit string (used to invert `natChars`). -/
def valOf (cs : List Char) : Nat :=
  cs.foldl (fun acc c => acc * 10 + digitVal c) 0

/-- A flattened utterance as consumed by the preferred path of
`PostProcess.json`: channel, optional diarization speaker label, start
time in seconds, optional transcript text. -/
structure Utt where
  channel : Nat
  speaker : Option Nat
  start : Rat
  transcript : Option (List Char)
deriving DecidableEq

/-- The value of the `speaker` variable in the result-building callbacks:
a numeric ID from the map, JavaScript `undefined` (a `Map.get` miss), or
the string constant used when the label is absent. -/
inductive SpkV where
  | num (n : Nat)
  | undefined
  | unknown
deriving DecidableEq

/-- How a `SpkV` prints inside the template literal `Speaker ${speaker}`. -/
def spkChars : SpkV → List Char
  | .num n => natChars n
  | .undefined => "undefined".toList
  | .unknown => "Unknown".toList

/-- The `Role` string of an output record. -/
def roleChars (v : SpkV) : List Char :=
  "Speaker ".toList ++ spkChars v

/-- The string key `channel_speaker` used in the speaker-ID `Map` when the
speaker label is present. -/
def keyOf (channel speaker : Nat) : List Char :=
  natChars channel ++ '_' :: natChars speaker

/-- Association-list lookup, first binding wins (`Map.get`). -/
def lookupId : List (List Char × Nat) → List Char → Option Nat
  | [], _ => none
  | (k2, v) :: m, k => if k2 = k then some v else lookupId m k

/-- The `forEach` loop that fills the speaker-ID `Map`: for each key in
stream order, if the key is absent, bind it to the current size. -/
def buildMap (keys : List (List Char)) : List (List Char × Nat) :=
  keys.foldl
    (fun m k => if (lookupId m k).isSome then m else m ++ [(k, m.length)]) []

/-- Comparator `(a, b) => a.start - b.start` as an ordering on
utterances. -/
def uttLe (a b : Utt) : Prop :=
  a.start ≤ b.start

instance : DecidableRel uttLe :=
  fun a b => inferInstanceAs (Decidable (a.start ≤ b.start))

instance : IsTotal Utt uttLe :=
  ⟨fun a b => le_total a.start b.start⟩

instance : IsTrans Utt uttLe :=
  ⟨fun _ _ _ h1 h2 => le_trans h1 h2⟩

/-- `utterances.sort((a, b) => a.start - b.start)`: ECMAScript requires a
stable sort; any stable sort yields the same list, so insertion sort
models it faithfully. -/
def sortedUtts (us : List Utt) : List Utt :=
  List.insertionSort uttLe us

/-- The stream of keys offered to the speaker-ID map: one per utterance
whose `speaker` field is present (the `u.speaker !== undefined` guard),
in stream order. -/
def labeledKeys (us : List Utt) : List (List Char) :=
  us.filterMap fun u => u.speaker.map fun s => keyOf u.channel s

/-- The speaker-ID map built by `PostProcess.json` on the sorted
utterance stream. -/
def uttMap (us : List Utt) : List (List Char × Nat) :=
  buildMap (labeledKeys (sortedUtts us))

/-- `u.speaker !== undefined ? speakerId.get(key) : 'Unknown'`. -/
def resolveSpk (m : List (List Char × Nat)) (u : Utt) : SpkV :=
  match u.speaker with
  | none => .unknown
  | some s =>
    match lookupId m (keyOf u.channel s) with
    | some n => .num n
    | none => .undefined

/-- One output record: `Role`, `Content`, `EndOfTurn`, and the `Timestamp`
field that is present only when requested. -/
structure TurnRecord where
  Role : List Char
  Content : List Char
  EndOfTurn : Bool
  Timestamp : Option (List Char)
deriving DecidableEq

/-- `padStart(2, '0')`. -/
def padTwo (s : List Char) : List Char :=
  if s.length < 2 then List.replicate (2 - s.length) '0' ++ s else s

/-- The `timestamp` helper of `postprocessing.js` (lines 99-108): split
seconds into hours, minutes and remaining seconds, floor each printed
component and zero-pad it to two digits. -/
def timestamp (seconds : Rat) : List Char :=
  let hours : Int := Int.floor (seconds / 3600)
  let s1 : Rat := seconds - hours * 3600
  let minutes : Int := Int.floor (s1 / 60)
  let s2 : Rat := s1 - minutes * 60
  padTwo (intChars hours) ++ ':' ::
    (padTwo (intChars minutes) ++ ':' :: padTwo (intChars (Int.floor s2)))

/-- The shared result-building `.map((u, index, arr) => ...)` callback,
applied to the per-segment resolved speaker value, content string and
start time.  For a non-final segment whose text-based classification is
false, EOT is forced when the next resolved speaker value differs. -/
def emitOne (segs : List (SpkV × List Char × Rat)) (includeTimestamps : Bool)
    (i : Nat) (seg : SpkV × List Char × Rat) : TurnRecord :=
  let isEndOfTurn := determineEOT seg.2.1
  let forcedEndOfTurn :=
    if !isEndOfTurn then
      match segs[i + 1]? with
      | some nxt => nxt.1 != seg.1
      | none => false
    else false
  ⟨roleChars seg.1, seg.2.1, isEndOfTurn || forcedEndOfTurn,
    if includeTimestamps then some (timestamp seg.2.2) else none⟩

/-- The full result-building `.map` call. -/
def emitResults (segs : List (SpkV × List Char × Rat))
    (includeTimestamps : Bool) : List TurnRecord :=
  segs.mapIdx (emitOne segs includeTimestamps)

/-- Per-utterance resolved fields: speaker value, `u.transcript || ''`,
start time. -/
def resolvedUtt (m : List (List Char × Nat)) (u : Utt) :
    SpkV × List Char × Rat :=
  (resolveSpk m u, u.transcript.getD [], u.start)

/-- The utterance-preferred path of `PostProcess.json` (lines 235-294),
given the non-empty utterance list extracted from the input. -/
def jsonUtt (us : List Utt) (includeTimestamps : Bool) : List TurnRecord :=
  emitResults ((sortedUtts us).map (resolvedUtt (uttMap us)))
    includeTimestamps

/-- A sentence inside a paragraph (its `text` field may be absent). -/
structure Sentence where
  text : Option (List Char)
deriving DecidableEq

/-- A paragraph of one channel's primary alternative. -/
structure Para where
  start : Rat
  speaker : Option Nat
  sentences : List Sentence
deriving DecidableEq

/-- `addChannelToParagraph`: a paragraph tagged with its channel index. -/
structure ParaC where
  channel : Nat
  para : Para
deriving DecidableEq

/-- The channel-collection loop of `jsonScriptFromParagraphs`: each
channel's paragraphs tagged with the channel index, concatenated. -/
def joinedParagraphs (channels : List (List Para)) : List ParaC :=
  (channels.enum.map fun ci => ci.2.map fun p => ParaC.mk ci.1 p).flatten

/-- Comparator `(a, b) => a.start - b.start` on tagged paragraphs. -/
def paraLe (a b : ParaC) : Prop :=
  a.para.start ≤ b.para.start

instance : DecidableRel paraLe :=
  fun a b => inferInstanceAs (Decidable (a.para.start ≤ b.para.start))

instance : IsTotal ParaC paraLe :=
  ⟨fun a b => le_total a.para.start b.para.start⟩

instance : IsTrans ParaC paraLe :=
  ⟨fun _ _ _ h1 h2 => le_trans h1 h2⟩

/-- `joinedParagraphs.sort((a, b) => a.start - b.start)` (stable). -/
def sortedParas (channels : List (List Para)) : List ParaC :=
  List.insertionSort paraLe (joinedParagraphs channels)

/-- The string key `channel_speaker` used in the paragraph fallback: no
guard on the speaker label, so an absent label is stringified as
`undefined`. -/
def keyOfP (channel : Nat) (speaker : Option Nat) : List Char :=
  natChars channel ++ '_' ::
    (match speaker with
     | some s => natChars s
     | none => "undefined".toList)

/-- The key stream of the paragraph fallback: one key per paragraph,
labeled or not. -/
def paraKeys (ps : List ParaC) : List (List Char) :=
  ps.map fun p => keyOfP p.channel p.para.speaker

/-- The speaker-ID map of the paragraph fallback. -/
def paraMap (channels : List (List Para)) : List (List Char × Nat) :=
  buildMap (paraKeys (sortedParas channels))

/-- `speakerId.get(key)` in the paragraph fallback (no absence guard). -/
def resolveSpkP (m : List (List Char × Nat)) (p : ParaC) : SpkV :=
  match lookupId m (keyOfP p.channel p.para.speaker) with
  | some n => .num n
  | none => .undefined

/-- `p.sentences.map((s) => s.text).join(' ')` (a missing `text` joins as
the empty string). -/
def paraContent (p : Para) : List Char :=
  List.intercalate [' '] (p.sentences.map fun s => s.text.getD [])

/-- Per-paragraph resolved fields. -/
def resolvedPara (m : List (List Char × Nat)) (p : ParaC) :
    SpkV × List Char × Rat :=
  (resolveSpkP m p, paraContent p.para, p.para.start)

/-- The paragraph fallback `jsonScriptFromParagraphs` (lines 132-210),
given the per-channel paragraph lists extracted from the input. -/
def jsonPara (channels : List (List Para)) (includeTimestamps : Bool) :
    List TurnRecord :=
  emitResults ((sortedParas channels).map (resolvedPara (paraMap channels)))
    includeTimestamps

/-- The timestamp format as worded in the specification: hours = floor of
`s / 3600`, minutes = floor of the remainder over 60, seconds = floor of
what is left, each zero-padded to two digits and joined with colons. -/
def specTimestamp (s : Rat) : List Char :=
  padTwo (intChars (Int.floor (s / 3600))) ++ ':' ::
    (padTwo (intChars (Int.floor ((s - 3600 * Int.floor (s / 3600)) / 60))) ++
      ':' :: padTwo (intChars (Int.floor (s - 3600 * Int.floor (s / 3600) -
        60 * Int.floor ((s - 3600 * Int.floor (s / 3600)) / 60)))))

/-- First occurrences of a stream of keys, in order: the accumulator
holds the keys already seen. -/
def firstOccAux : List (List Char) → List (List Char) → List (List Char)
  | _, [] => []
  | seen, k :: ks =>
    if k ∈ seen then firstOccAux seen ks
    else k :: firstOccAux (k :: seen) ks

/-- The distinct keys of a stream in first-appearance order. -/
def firstOcc (ks : List (List Char)) : List (List Char) :=
  firstOccAux [] ks

/-- A JavaScript value, as far as `PostProcess.json` inspects one. -/
inductive JVal where
  | undefined
  | jnull
  | jbool (b : Bool)
  | jnum (q : Rat)
  | jstr (s : List Char)
  | jarr (xs : List JVal)
  | jobj (fs : List (List Char × JVal))

/-- The only exception class these functions can raise (`TypeError`:
calling a method of `undefined`, or of a value that lacks it). -/
inductive JsErr where
  | typeError
deriving DecidableEq

/-- JavaScript truthiness (NaN is not modelled; no input here produces
it). -/
def truthy : JVal → Bool
  | .undefined => false
  | .jnull => false
  | .jbool b => b
  | .jnum q => !(q == 0)
  | .jstr s => !s.isEmpty
  | .jarr _ => true
  | .jobj _ => true

/-- First binding of a key in an object's field list. -/
def lookupField : List (List Char × JVal) → List Char → Option JVal
  | [], _ => none
  | (k2, v) :: fs, k => if k2 = k then some v else lookupField fs k

/-- Property access on a non-null receiver: objects look the key up
(missing keys give `undefined`); primitives and arrays have none of the
properties accessed here. -/
def getF : JVal → List Char → JVal
  | .jobj fs, k => (lookupField fs k).getD .undefined
  | _, _ => .undefined

/-- Optional chaining `v?.k`: `undefined` when the receiver is
null/undefined, otherwise plain access. -/
def optF (v : JVal) (k : List Char) : JVal :=
  match v with
  | .undefined => .undefined
  | .jnull => .undefined
  | v => getF v k

/-- Plain access `v.k`: raises on a null/undefined receiver. -/
def getm (v : JVal) (k : List Char) : Except JsErr JVal :=
  match v with
  | .undefined => .error .typeError
  | .jnull => .error .typeError
  | v => .ok (getF v k)

/-- Optional indexing `v?.[0]`. -/
def optIdx0 (v : JVal) : JVal :=
  match v with
  | .jarr xs => (xs[0]?).getD .undefined
  | .jstr [] => .undefined
  | .jstr (c :: _) => .jstr [c]
  | .jobj fs => (lookupField fs ['0']).getD .undefined
  | _ => .undefined

/-- `.length` of a value (arrays and strings have one; plain objects may
carry such a key; primitives give `undefined`). -/
def lengthOf : JVal → JVal
  | .jarr xs => .jnum xs.length
  | .jstr s => .jnum s.length
  | .jobj fs => (lookupField fs "length".toList).getD .undefined
  | _ => .undefined

/-- Decimal printing of a rational.  JavaScript prints number values in
decimal; on the integral values that reach string conversion in this
code the two agree, and only integral values are exercised by the
theorems below. -/
def ratChars (q : Rat) : List Char :=
  intChars q.num ++ (if q.den = 1 then [] else '/' :: natChars q.den)

/-- String conversion inside a template literal.  (Printing of nested
arrays is not modelled; no theorem below exercises it.) -/
def jsToStr : JVal → List Char
  | .undefined => "undefined".toList
  | .jnull => "null".toList
  | .jbool true => "true".toList
  | .jbool false => "false".toList
  | .jnum q => ratChars q
  | .jstr s => s
  | .jarr _ => []
  | .jobj _ => "[object Object]".toList

/-- Element conversion used by `Array.prototype.join`: null/undefined
become the empty string. -/
def joinStr : JVal → List Char
  | .undefined => []
  | .jnull => []
  | v => jsToStr v

/-- The numeric `start` field of a segment object (non-numeric values
would give NaN comparisons in the sort; they are modelled as 0 and not
exercised). -/
def startNum (v : JVal) : Rat :=
  match getF v "start".toList with
  | .jnum q => q
  | _ => 0

/-- The sort comparator `(a, b) => a.start - b.start` as an ordering. -/
def jvLe (a b : JVal) : Prop :=
  startNum a ≤ startNum b

instance : DecidableRel jvLe :=
  fun a b => inferInstanceAs (Decidable (startNum a ≤ startNum b))

instance : IsTotal JVal jvLe :=
  ⟨fun a b => le_total (startNum a) (startNum b)⟩

instance : IsTrans JVal jvLe :=
  ⟨fun _ _ _ h1 h2 => le_trans h1 h2⟩

/-- `arr.sort((a, b) => a.start - b.start)` (stable, per ECMAScript). -/
def jvSort (xs : List JVal) : List JVal :=
  List.insertionSort jvLe xs

/-- `determineEOT` applied to a JavaScript value: falsy arguments return
true before any method is called; a truthy non-string has no `trim`
method and raises. -/
def jvDetermineEOT (v : JVal) : Except JsErr Bool :=
  if truthy v = false then .ok true
  else match v with
    | .jstr s => .ok (determineEOT s)
    | _ => .error .typeError

/-- The template key `channel_speaker` over dynamic values. -/
def jvKeyOf (u : JVal) : List Char :=
  jsToStr (getF u "channel".toList) ++ '_' ::
    jsToStr (getF u "speaker".toList)

/-- The `forEach` building the speaker map on the utterance path: skip
utterances whose `speaker` is undefined (accessing the field raises on a
null/undefined element). -/
def buildMapJ (us : List JVal) : Except JsErr (List (List Char × Nat)) :=
  us.foldlM
    (fun m u => do
      let sp ← getm u "speaker".toList
      match sp with
      | .undefined => pure m
      | _ =>
        if (lookupId m (jvKeyOf u)).isSome then pure m
        else pure (m ++ [(jvKeyOf u, m.length)]))
    []

/-- `u.speaker !== undefined ? speakerId.get(key) : 'Unknown'`. -/
def jvResolve (m : List (List Char × Nat)) (u : JVal) :
    Except JsErr SpkV := do
  let sp ← getm u "speaker".toList
  match sp with
  | .undefined => pure SpkV.unknown
  | _ =>
    match lookupId m (jvKeyOf u) with
    | some n => pure (SpkV.num n)
    | none => pure SpkV.undefined

/-- The per-utterance callback of the utterance path over dynamic
values. -/
def jvRecord (m : List (List Char × Nat)) (arr : List JVal) (ts : Bool)
    (i : Nat) (u : JVal) : Except JsErr TurnRecord := do
  let spk ← jvResolve m u
  let traw ← getm u "transcript".toList
  let transcript : JVal := if truthy traw then traw else .jstr []
  let isEOT ← jvDetermineEOT transcript
  let forced ←
    (if !isEOT then
      match arr[i + 1]? with
      | some nxt => do
        let nspk ← jvResolve m nxt
        pure (nspk != spk)
      | none => pure false
    else pure false)
  let tsField ←
    (if ts then do
      let st ← getm u "start".toList
      pure (some (timestamp
        (match st with
         | JVal.jnum q => q
         | _ => 0)))
    else pure none)
  pure ⟨roleChars spk, jsToStr transcript, isEOT || forced, tsField⟩

/-- `addChannelToParagraph`: spread the paragraph and set `channel`.
(Spreading a primitive contributes no own properties; index properties
of spread strings/arrays are not modelled and not exercised.) -/
def addChannelToParagraph (p : JVal) (channel : Nat) : JVal :=
  match p with
  | .jobj fs => .jobj ((fs.filter fun kv => kv.1 != "channel".toList) ++
      [("channel".toList, .jnum channel)])
  | _ => .jobj [("channel".toList, .jnum channel)]

/-- `channel?.alternatives?.[0]?.paragraphs?.paragraphs || []`, then the
`.map` over it (raising if the result of `||` is a truthy
non-array). -/
def channelParagraphs (ch : JVal) : Except JsErr (List JVal) :=
  match (fun ps => if truthy ps then ps else JVal.jarr [])
      (optF (optF (optIdx0 (optF ch "alternatives".toList))
        "paragraphs".toList) "paragraphs".toList) with
  | .jarr xs => .ok xs
  | _ => .error .typeError

/-- `p.sentences.map((s) => s.text).join(' ')`: raises when `sentences`
is not an array (in particular when it is absent) or when an element is
null/undefined. -/
def paraContentJ (p : JVal) : Except JsErr (List Char) :=
  match getF p "sentences".toList with
  | .jarr ss => do
    let texts ← ss.mapM fun s => do
      let t ← getm s "text".toList
      pure (joinStr t)
    pure (List.intercalate [' '] texts)
  | _ => .error .typeError

/-- The paragraph-path key `channel_speaker` (no guard: an absent
speaker stringifies as `undefined`). -/
def keyOfPJ (p : JVal) : List Char :=
  jsToStr (getF p "channel".toList) ++ '_' ::
    jsToStr (getF p "speaker".toList)

/-- The paragraph-path `forEach` filling the speaker map (every element
is a spread result, hence an object; no access can raise). -/
def buildMapPJ (ps : List JVal) : List (List Char × Nat) :=
  ps.foldl
    (fun m p =>
      if (lookupId m (keyOfPJ p)).isSome then m
      else m ++ [(keyOfPJ p, m.length)])
    []

/-- The per-paragraph callback of the fallback path. -/
def pvRecord (m : List (List Char × Nat)) (arr : List JVal) (ts : Bool)
    (i : Nat) (p : JVal) : Except JsErr TurnRecord := do
  let spk : SpkV :=
    match lookupId m (keyOfPJ p) with
    | some n => SpkV.num n
    | none => SpkV.undefined
  let content ← paraContentJ p
  let isEOT := determineEOT content
  let forced :=
    if !isEOT then
      match arr[i + 1]? with
      | some nxt =>
        (match lookupId m (keyOfPJ nxt) with
         | some n => SpkV.num n
         | none => SpkV.undefined) != spk
      | none => false
    else false
  let tsField : Option (List Char) :=
    if ts then some (timestamp (startNum p)) else none
  pure ⟨roleChars spk, content, isEOT || forced, tsField⟩

/-- `jsonScriptFromParagraphs` over dynamic values (the output document
`{results: rs}` is represented by its record list `rs`). -/
def jsonScriptFromParagraphs (data : JVal) (ts : Bool) :
    Except JsErr (List TurnRecord) :=
  match optF (optF data "results".toList) "channels".toList with
  | .jarr chs => do
    let lists ← chs.enum.mapM fun ic => do
      let ps ← channelParagraphs ic.2
      pure (ps.map fun p => addChannelToParagraph p ic.1)
    let sorted := jvSort lists.flatten
    let m := buildMapPJ sorted
    sorted.enum.mapM fun ip => pvRecord m sorted ts ip.1 ip.2
  | _ => .ok []

/-- Replace the first binding of a key (used to reflect the in-place
mutation of the utterances array). -/
def setAssoc : List (List Char × JVal) → List Char → JVal →
    List (List Char × JVal)
  | [], _, _ => []
  | (k2, w) :: fs, k, v =>
    if k2 = k then (k2, v) :: fs else (k2, w) :: setAssoc fs k v

/-- The value of `data` after `data.results.utterances` has been sorted
in place. -/
def setUtts (data : JVal) (ys : JVal) : JVal :=
  match data with
  | .jobj fs =>
    .jobj (setAssoc fs "results".toList
      (match (lookupField fs "results".toList).getD .undefined with
       | .jobj gs => .jobj (setAssoc gs "utterances".toList ys)
       | r => r))
  | v => v

/-- `PostProcess.json` over dynamic values: returns the output record
list together with the post-call value of `data` (the only mutation the
function performs is the in-place sort of `data.results.utterances`;
a raised exception carries no post-state). -/
def json (data : JVal) (includeTimestamps : Bool) :
    Except JsErr (List TurnRecord × JVal) :=
  if truthy (optF data "results".toList) = false then
    .ok ([], data)
  else
    let uttsRaw := getF (getF data "results".toList) "utterances".toList
    let utterances := if truthy uttsRaw then uttsRaw else JVal.jarr []
    if (match lengthOf utterances with
        | .jnum q => q == 0
        | _ => false) then
      (jsonScriptFromParagraphs data includeTimestamps).map
        fun rs => (rs, data)
    else
      match utterances with
      | .jarr xs =>
        Except.map (fun rs => (rs, setUtts data (.jarr (jvSort xs))))
          (do
            let m ← buildMapJ (jvSort xs)
            (jvSort xs).enum.mapM fun iu =>
              jvRecord m (jvSort xs) includeTimestamps iu.1 iu.2)
      | _ => .error .typeError

/-- The starts of the utterances array of a document (projection used to
observe mutation of the input). -/
def uttStartsOf (d : JVal) : List Rat :=
  match getF (getF d "results".toList) "utterances".toList with
  | .jarr xs => xs.map startNum
  | _ => []

/-- Post-call state of the input carried by a successful `json` call. -/
def postData : Except JsErr (List TurnRecord × JVal) → JVal
  | .ok (_, d) => d
  | .error _ => .undefined

/-- Whether a call raised. -/
def isError {α : Type} : Except JsErr α → Bool
  | .error _ => true
  | .ok _ => false

/-- A well-formed utterance object with start time 1. -/
def uttJ1 : JVal := JVal.jobj [("channel".toList, JVal.jnum 0),
  ("speaker".toList, JVal.jnum 0), ("start".toList, JVal.jnum 1),
  ("transcript".toList, JVal.jstr "A.".toList)]

/-- A well-formed utterance object with start time 2. -/
def uttJ2 : JVal := JVal.jobj [("channel".toList, JVal.jnum 0),
  ("speaker".toList, JVal.jnum 1), ("start".toList, JVal.jnum 2),
  ("transcript".toList, JVal.jstr "B.".toList)]

/-- A document whose utterances already arrive sorted by start time. -/
def dataJsorted : JVal := JVal.jobj [("results".toList,
  JVal.jobj [("utterances".toList, JVal.jarr [uttJ1, uttJ2])])]

/-- The records `json` produces for `dataJsorted`. -/
def recsJsorted : List TurnRecord :=
  [⟨"Speaker 0".toList, "A.".toList, true, none⟩,
   ⟨"Speaker 1".toList, "B.".toList, true, none⟩]

example : determineEOT "Hello there.".toList = true := by decide

example : determineEOT "I think that...".toList = false := by decide

example : determineEOT "What time is it".toList = false := by decide

example : determineEOT "um".toList = false := by decide

example : determineEOT "I saw a tailor".toList = false := by decide

example : determineEOT "".toList = true := by decide

example : determineEOT "   ".toList = true := by decide

example : determineEOT "He said \"stop.\"".toList = true := by decide

theorem testTermPunct_iff (t : List Char) :
    testTermPunct t = true ↔ SpecTermPunct t := by
  unfold testTermPunct SpecTermPunct
  rw [List.any_eq_true]
  constructor
  · rintro ⟨s, hs, hmatch⟩
    match s, hmatch with
    | c :: rest, hmatch =>
      rw [Bool.and_eq_true] at hmatch
      obtain ⟨pre, hpre⟩ := (List.mem_tails _ _).mp hs
      exact ⟨pre, c, rest, hpre.symm, hmatch.1, List.all_eq_true.mp hmatch.2⟩
  · rintro ⟨pre, c, suf, ht, h1, h2⟩
    refine ⟨c :: suf, (List.mem_tails _ _).mpr ⟨pre, ht.symm⟩, ?_⟩
    simp only [Bool.and_eq_true]
    exact ⟨h1, List.all_eq_true.mpr h2⟩

theorem testEllipsisA_iff (t : List Char) :
    testEllipsisA t = true ↔ SpecEllipsisMoji t := by
  unfold testEllipsisA SpecEllipsisMoji
  rw [Bool.or_eq_true, List.isSuffixOf_iff_suffix, List.isSuffixOf_iff_suffix]

theorem testEndsWithPhrase_iff (phrase t : List Char) :
    testEndsWithPhrase phrase t = true ↔
      ∃ pre suf, lowerList t = pre ++ phrase ++ suf ∧
        ∀ x ∈ suf, contTailChar x = true := by
  unfold testEndsWithPhrase
  rw [List.any_eq_true]
  constructor
  · rintro ⟨s, hs, hmatch⟩
    rw [Bool.and_eq_true, List.isPrefixOf_iff_prefix] at hmatch
    obtain ⟨⟨suf, hsuf⟩, hall⟩ := hmatch
    obtain ⟨pre, hpre⟩ := (List.mem_tails _ _).mp hs
    subst hsuf
    rw [List.drop_left] at hall
    exact ⟨pre, suf, by rw [← hpre, List.append_assoc],
      List.all_eq_true.mp hall⟩
  · rintro ⟨pre, suf, ht, hall⟩
    refine ⟨phrase ++ suf, (List.mem_tails _ _).mpr ⟨pre, ?_⟩, ?_⟩
    · rw [ht, List.append_assoc]
    · rw [Bool.and_eq_true, List.isPrefixOf_iff_prefix, List.drop_left]
      exact ⟨⟨suf, rfl⟩, List.all_eq_true.mpr hall⟩

theorem testContinuation_iff (t : List Char) :
    testContinuation t = true ↔ SpecContinuation t := by
  unfold testContinuation SpecContinuation
  rw [List.any_eq_true]
  constructor
  · rintro ⟨p, hp, h⟩
    exact ⟨p, hp, (testEndsWithPhrase_iff p t).mp h⟩
  · rintro ⟨p, hp, pre, suf, ht, hall⟩
    exact ⟨p, hp, (testEndsWithPhrase_iff p t).mpr ⟨pre, suf, ht, hall⟩⟩

theorem testStarter_iff (st t : List Char) :
    testStarter st t = true ↔
      ∃ rest, lowerList t = st ++ rest ∧
        (rest = [] ∨ ∃ c rest2, rest = c :: rest2 ∧ isWordChar c = false) := by
  unfold testStarter
  rw [Bool.and_eq_true, List.isPrefixOf_iff_prefix]
  constructor
  · rintro ⟨⟨rest, hrest⟩, hb⟩
    refine ⟨rest, hrest.symm, ?_⟩
    rw [← hrest, List.drop_left] at hb
    match rest, hb with
    | [], _ => exact Or.inl rfl
    | c :: rest2, hb =>
      exact Or.inr ⟨c, rest2, rfl, by simpa using hb⟩
  · rintro ⟨rest, ht, hb⟩
    refine ⟨⟨rest, ht.symm⟩, ?_⟩
    rw [ht, List.drop_left]
    rcases hb with rfl | ⟨c, rest2, rfl, hc⟩
    · rfl
    · simpa using hc

theorem testStartsWithQuestion_iff (t : List Char) :
    testStartsWithQuestion t = true ↔
      ∃ st ∈ questionStarters, ∃ rest, lowerList t = st ++ rest ∧
        (rest = [] ∨ ∃ c rest2, rest = c :: rest2 ∧ isWordChar c = false) := by
  unfold testStartsWithQuestion
  rw [List.any_eq_true]
  constructor
  · rintro ⟨st, hst, h⟩
    exact ⟨st, hst, (testStarter_iff st t).mp h⟩
  · rintro ⟨st, hst, h⟩
    exact ⟨st, hst, (testStarter_iff st t).mpr h⟩

theorem notQuestion_iff (text : List Char) :
    (testStartsWithQuestion (jsTrim text) && !text.contains '?') = true ↔
      SpecUnmarkedQuestion text := by
  rw [Bool.and_eq_true, testStartsWithQuestion_iff]
  unfold SpecUnmarkedQuestion
  simp only [List.elem_eq_mem, Bool.not_eq_eq_eq_not, Bool.not_true,
    decide_eq_false_iff_not]

/-- Claim C1: `determineEOT` returns true exactly when the trimmed text is
empty, or it ends with terminal punctuation (optionally followed by
quote/whitespace characters up to the end), does not end with an
ellipsis, does not end with a continuation phrase, and is not an
unmarked question (a question-starter as a whole leading word with no
question mark anywhere in the text). -/
theorem determineEOT_spec (text : List Char) :
    determineEOT text = true ↔
      jsTrim text = [] ∨
        (SpecTermPunct (jsTrim text) ∧ ¬ SpecEllipsisMoji (jsTrim text) ∧
         ¬ SpecContinuation (jsTrim text) ∧ ¬ SpecUnmarkedQuestion text) := by
  unfold determineEOT
  by_cases h : (jsTrim text).isEmpty
  · simp only [h, if_true, true_iff]
    exact Or.inl (List.isEmpty_iff.mp h)
  · rw [if_neg h]
    have hne : ¬ jsTrim text = [] := fun hh => h (List.isEmpty_iff.mpr hh)
    rw [or_iff_right hne]
    have h1 := testTermPunct_iff (jsTrim text)
    have h2 := testContinuation_iff (jsTrim text)
    have h3 := testEllipsisA_iff (jsTrim text)
    have hq := notQuestion_iff text
    constructor
    · intro hb
      simp only [Bool.and_eq_true, Bool.not_eq_eq_eq_not, Bool.not_true] at hb
      obtain ⟨⟨⟨ha, hbf⟩, hcf⟩, hdf⟩ := hb
      refine ⟨h1.mp ha, fun he => ?_, fun hc => ?_, fun hq2 => ?_⟩
      · simp [h3.mpr he] at hdf
      · simp [h2.mpr hc] at hbf
      · exact absurd ((hq.mpr hq2).symm.trans hcf) (by decide)
    · rintro ⟨hA, hB, hC, hD⟩
      simp only [Bool.and_eq_true, Bool.not_eq_eq_eq_not, Bool.not_true]
      exact ⟨⟨⟨h1.mpr hA, Bool.eq_false_iff.mpr fun hx => hC (h2.mp hx)⟩,
        Bool.eq_false_iff.mpr fun hx => hD (hq.mp hx)⟩,
        Bool.eq_false_iff.mpr fun hx => hB (h3.mp hx)⟩

/-- Claim C9: the ends-with-continuation-phrase test holds exactly when
the (trimmed) text ends with one of the thirteen discourse markers,
case-insensitively, optionally followed by commas and/or whitespace up to
the end of the string; the marker need only be the ending characters of
the text (no word boundary is required). -/
theorem endsWithContinuationPhrase_spec (text : List Char) :
    testContinuation (jsTrim text) = true ↔ SpecContinuation (jsTrim text) :=
  testContinuation_iff (jsTrim text)

theorem suffix_getLast? {s t : List Char} (hs : s <:+ t) (hne : s ≠ []) :
    t.getLast? = s.getLast? := by
  obtain ⟨pre, rfl⟩ := hs
  rw [List.getLast?_append]
  cases hgl : s.getLast? with
  | none => exact absurd (List.getLast?_eq_none_iff.mp hgl) hne
  | some c => rfl

theorem testTermPunct_last {t : List Char} (h : testTermPunct t = true) :
    ∃ c, t.getLast? = some c ∧ (isTermPunct c || termTailChar c) = true := by
  obtain ⟨pre, c, suf, rfl, hc, hsuf⟩ := (testTermPunct_iff t).mp h
  rcases List.eq_nil_or_concat suf with rfl | ⟨s2, d, rfl⟩
  · refine ⟨c, ?_, by rw [hc]; rfl⟩
    exact List.getLast?_concat pre
  · refine ⟨d, ?_, ?_⟩
    · rw [List.concat_eq_append, ← List.cons_append, ← List.append_assoc]
      exact List.getLast?_concat _
    · have hd : termTailChar d = true :=
        hsuf d (by simp [List.concat_eq_append])
      rw [hd, Bool.or_true]

/-- Claim C10: the two snapshots of `determineEOT` — one testing for the
mojibake sequence in the ellipsis regex, one testing for the true
ellipsis glyph — are extensionally equal: a trimmed text ending in
either glyph cannot pass the terminal-punctuation test, so the
difference in the ellipsis flag never reaches the result. -/
theorem determineEOT_snapshots_agree (text : List Char) :
    determineEOT text = determineEOT2 text := by
  unfold determineEOT determineEOT2
  by_cases h : (jsTrim text).isEmpty
  · simp [h]
  · rw [if_neg h, if_neg h]
    by_cases hTP : testTermPunct (jsTrim text) = true
    · have hlast := testTermPunct_last hTP
      obtain ⟨c, hcl, hcP⟩ := hlast
      have hEq : testEllipsisA (jsTrim text) = testEllipsisB (jsTrim text) := by
        unfold testEllipsisA testEllipsisB
        have hm : ellipsisMoji.isSuffixOf (jsTrim text) = false := by
          rw [Bool.eq_false_iff]
          intro hsuf
          have hl := suffix_getLast? (List.isSuffixOf_iff_suffix.mp hsuf)
            (by decide)
          rw [hcl] at hl
          have hcv : c = '¦' := by simpa [ellipsisMoji] using hl
          subst hcv
          revert hcP
          decide
        have hg : (['…'].isSuffixOf (jsTrim text)) = false := by
          rw [Bool.eq_false_iff]
          intro hsuf
          have hl := suffix_getLast? (List.isSuffixOf_iff_suffix.mp hsuf)
            (by decide)
          rw [hcl] at hl
          have hcv : c = '…' := by simpa using hl
          subst hcv
          revert hcP
          decide
        rw [hm, hg]
      rw [hEq]
    · have hf : testTermPunct (jsTrim text) = false := Bool.eq_false_iff.mpr hTP
      rw [hf]
      simp

theorem valOf_append_digit (xs : List Char) (c : Char) :
    valOf (xs ++ [c]) = valOf xs * 10 + digitVal c := by
  unfold valOf
  rw [List.foldl_append]
  rfl

theorem digitVal_digitChar : ∀ d, d < 10 → digitVal (Nat.digitChar d) = d := by
  decide

theorem natCharsAux_val : ∀ fuel n, n < fuel → valOf (natCharsAux fuel n) = n := by
  intro fuel
  induction fuel with
  | zero => exact fun n h => absurd h (Nat.not_lt_zero n)
  | succ f ih =>
    intro n h
    unfold natCharsAux
    by_cases h10 : n < 10
    · rw [if_pos h10]
      show valOf [Nat.digitChar n] = n
      unfold valOf
      simp [digitVal_digitChar n h10]
    · rw [if_neg h10]
      have hn0 : 0 < n := Nat.lt_of_lt_of_le (by norm_num) (Nat.le_of_not_lt h10)
      have hdiv : n / 10 < n := Nat.div_lt_self hn0 (by norm_num)
      have hlt : n / 10 < f := Nat.lt_of_lt_of_le hdiv (Nat.lt_succ_iff.mp h)
      rw [valOf_append_digit, ih _ hlt,
        digitVal_digitChar _ (Nat.mod_lt n (by norm_num)), Nat.mul_comm]
      exact Nat.div_add_mod n 10

theorem valOf_natChars (n : Nat) : valOf (natChars n) = n :=
  natCharsAux_val (n + 1) n (Nat.lt_succ_self n)

theorem natChars_injective : Function.Injective natChars := by
  intro a b h
  have h2 := congrArg valOf h
  rwa [valOf_natChars, valOf_natChars] at h2

theorem digitChar_isDigit : ∀ d, d < 10 → (Nat.digitChar d).isDigit = true := by
  decide

theorem natCharsAux_digits :
    ∀ fuel n c, c ∈ natCharsAux fuel n → c.isDigit = true := by
  intro fuel
  induction fuel with
  | zero => intro n c h; simp [natCharsAux] at h
  | succ f ih =>
    intro n c h
    unfold natCharsAux at h
    by_cases h10 : n < 10
    · rw [if_pos h10] at h
      rw [List.mem_singleton.mp h]
      exact digitChar_isDigit n h10
    · rw [if_neg h10, List.mem_append] at h
      rcases h with h | h
      · exact ih _ c h
      · rw [List.mem_singleton.mp h]
        exact digitChar_isDigit _ (Nat.mod_lt n (by norm_num))

theorem natChars_digits {n : Nat} {c : Char} (h : c ∈ natChars n) :
    c.isDigit = true :=
  natCharsAux_digits (n + 1) n c h

theorem append_sep_inj {sep : Char} :
    ∀ {a a2 b b2 : List Char}, (∀ c ∈ a, c ≠ sep) → (∀ c ∈ a2, c ≠ sep) →
      a ++ sep :: b = a2 ++ sep :: b2 → a = a2 ∧ b = b2 := by
  intro a
  induction a with
  | nil =>
    intro a2 b b2 _ ha2 h
    cases a2 with
    | nil => simpa using h
    | cons x xs =>
      rw [List.nil_append, List.cons_append, List.cons_eq_cons] at h
      exact absurd h.1.symm (ha2 x (List.mem_cons_self x xs))
  | cons x xs ih =>
    intro a2 b b2 ha ha2 h
    cases a2 with
    | nil =>
      rw [List.nil_append, List.cons_append, List.cons_eq_cons] at h
      exact absurd h.1 (ha x (List.mem_cons_self x xs))
    | cons y ys =>
      rw [List.cons_append, List.cons_append, List.cons_eq_cons] at h
      obtain ⟨rfl, h2⟩ := h
      obtain ⟨rfl, rfl⟩ := ih (fun c hc => ha c (List.mem_cons_of_mem _ hc))
        (fun c hc => ha2 c (List.mem_cons_of_mem _ hc)) h2
      exact ⟨rfl, rfl⟩

example :
    jsonUtt [⟨0, some 0, 1, some "Hi.".toList⟩,
             ⟨0, some 1, 2, some "Hello".toList⟩] false =
      [⟨"Speaker 0".toList, "Hi.".toList, true, none⟩,
       ⟨"Speaker 1".toList, "Hello".toList, false, none⟩] := by decide

example :
    jsonUtt [⟨0, some 0, 1, some "and then".toList⟩,
             ⟨0, some 1, 2, some "Hello.".toList⟩] false =
      [⟨"Speaker 0".toList, "and then".toList, true, none⟩,
       ⟨"Speaker 1".toList, "Hello.".toList, true, none⟩] := by decide

theorem length_emitResults (segs : List (SpkV × List Char × Rat)) (ts : Bool) :
    (emitResults segs ts).length = segs.length := by
  unfold emitResults
  exact List.length_mapIdx

theorem emitResults_getElem? (segs : List (SpkV × List Char × Rat)) (ts : Bool)
    (i : Nat) :
    (emitResults segs ts)[i]? = (segs[i]?).map (emitOne segs ts i) := by
  by_cases h : i < segs.length
  · have h2 : i < (emitResults segs ts).length := by
      rw [length_emitResults]; exact h
    rw [List.getElem?_eq_getElem h2, List.getElem?_eq_getElem h]
    unfold emitResults at h2 ⊢
    rw [List.getElem_mapIdx]
    rfl
  · rw [List.getElem?_eq_none (by rw [length_emitResults]; omega),
      List.getElem?_eq_none (by omega)]
    rfl

theorem natChars_ne_undefined (n : Nat) : natChars n ≠ "undefined".toList := by
  intro h
  have hm : 'u' ∈ natChars n := by rw [h]; decide
  exact absurd (natChars_digits hm) (by decide)

theorem natChars_ne_unknown (n : Nat) : natChars n ≠ "Unknown".toList := by
  intro h
  have hm : 'U' ∈ natChars n := by rw [h]; decide
  exact absurd (natChars_digits hm) (by decide)

theorem spkChars_injective : Function.Injective spkChars := by
  intro a b h
  match a, b with
  | .num m, .num n => exact congrArg SpkV.num (natChars_injective h)
  | .num m, .undefined => exact absurd h (natChars_ne_undefined m)
  | .num m, .unknown => exact absurd h (natChars_ne_unknown m)
  | .undefined, .num n => exact absurd h.symm (natChars_ne_undefined n)
  | .unknown, .num n => exact absurd h.symm (natChars_ne_unknown n)
  | .undefined, .undefined => rfl
  | .unknown, .unknown => rfl
  | .undefined, .unknown => exact absurd h (by decide)
  | .unknown, .undefined => exact absurd h (by decide)

theorem roleChars_injective : Function.Injective roleChars := by
  intro a b h
  exact spkChars_injective (List.append_cancel_left h)

theorem emit_force (segs : List (SpkV × List Char × Rat)) (ts : Bool) :
    ∀ i a b, (emitResults segs ts)[i]? = some a →
      (emitResults segs ts)[i + 1]? = some b →
      determineEOT a.Content = false → a.Role ≠ b.Role →
      a.EndOfTurn = true := by
  intro i a b ha hb hf hr
  rw [emitResults_getElem?] at ha hb
  cases hsi : segs[i]? with
  | none => rw [hsi] at ha; cases ha
  | some si =>
    cases hsj : segs[i + 1]? with
    | none => rw [hsj] at hb; cases hb
    | some sj =>
      rw [hsi] at ha
      rw [hsj] at hb
      simp only [Option.map_some'] at ha hb
      have hvA : a = emitOne segs ts i si := (Option.some.inj ha).symm
      have hvB : b = emitOne segs ts (i + 1) sj := (Option.some.inj hb).symm
      subst hvA
      subst hvB
      have hContent : (emitOne segs ts i si).Content = si.2.1 := rfl
      rw [hContent] at hf
      have hspk : sj.1 ≠ si.1 := by
        intro he
        apply hr
        show roleChars si.1 = roleChars sj.1
        rw [he]
      show (determineEOT si.2.1 ||
        (if !determineEOT si.2.1 then
          match segs[i + 1]? with
          | some nxt => nxt.1 != si.1
          | none => false
         else false)) = true
      rw [hf, hsj]
      simp [bne_iff_ne, hspk]

theorem emit_last (segs : List (SpkV × List Char × Rat)) (ts : Bool) :
    ∀ a, (emitResults segs ts).getLast? = some a →
      a.EndOfTurn = determineEOT a.Content := by
  intro a ha
  rw [List.getLast?_eq_getElem?, emitResults_getElem?, length_emitResults] at ha
  cases hsi : segs[segs.length - 1]? with
  | none => rw [hsi] at ha; cases ha
  | some si =>
    rw [hsi] at ha
    simp only [Option.map_some'] at ha
    have hvA : a = emitOne segs ts (segs.length - 1) si :=
      (Option.some.inj ha).symm
    subst hvA
    obtain ⟨hlt, _⟩ := List.getElem?_eq_some_iff.mp hsi
    have hnone : segs[segs.length - 1 + 1]? = none :=
      List.getElem?_eq_none (by omega)
    show (determineEOT si.2.1 ||
      (if !determineEOT si.2.1 then
        match segs[segs.length - 1 + 1]? with
        | some nxt => nxt.1 != si.1
        | none => false
       else false)) = determineEOT si.2.1
    rw [hnone]
    cases heot : determineEOT si.2.1 <;> simp

/-- Claim C4: in both the utterance path and the paragraph fallback, a
non-final segment whose raw classifier result is false and whose
resolved identity differs from the next segment's has its emitted
`EndOfTurn` forced to true; the last segment's emitted `EndOfTurn`
always equals `determineEOT` of its text, never forced. -/
theorem forcedEOT_spec (us : List Utt) (channels : List (List Para))
    (ts : Bool) :
    (∀ i a b, (jsonUtt us ts)[i]? = some a →
        (jsonUtt us ts)[i + 1]? = some b →
        determineEOT a.Content = false → a.Role ≠ b.Role →
        a.EndOfTurn = true) ∧
    (∀ a, (jsonUtt us ts).getLast? = some a →
        a.EndOfTurn = determineEOT a.Content) ∧
    (∀ i a b, (jsonPara channels ts)[i]? = some a →
        (jsonPara channels ts)[i + 1]? = some b →
        determineEOT a.Content = false → a.Role ≠ b.Role →
        a.EndOfTurn = true) ∧
    (∀ a, (jsonPara channels ts).getLast? = some a →
        a.EndOfTurn = determineEOT a.Content) :=
  ⟨emit_force _ _, emit_last _ _, emit_force _ _, emit_last _ _⟩

/-- Concrete instantiation of `forcedEOT_spec`: speaker change after
`"and then"` (classifier false) forces EOT; the final record keeps its
raw classification. -/
theorem forcedEOT_witness :
    ((jsonUtt [⟨0, some 0, 1, some "and then".toList⟩,
               ⟨0, some 1, 2, some "Hello.".toList⟩] false)[0]? =
        some ⟨"Speaker 0".toList, "and then".toList, true, none⟩ ∧
      determineEOT "and then".toList = false ∧
      ("Speaker 0".toList : List Char) ≠ "Speaker 1".toList) ∧
    (⟨"Speaker 0".toList, "and then".toList, true, none⟩ :
        TurnRecord).EndOfTurn = true ∧
    (⟨"Speaker 1".toList, "Hello.".toList, true, none⟩ :
        TurnRecord).EndOfTurn =
      determineEOT (⟨"Speaker 1".toList, "Hello.".toList, true, none⟩ :
        TurnRecord).Content :=
  ⟨⟨by decide, by decide, by decide⟩,
    (forcedEOT_spec [⟨0, some 0, 1, some "and then".toList⟩,
        ⟨0, some 1, 2, some "Hello.".toList⟩] [] false).1 0
      ⟨"Speaker 0".toList, "and then".toList, true, none⟩
      ⟨"Speaker 1".toList, "Hello.".toList, true, none⟩
      (by decide) (by decide) (by decide) (by decide),
    (forcedEOT_spec [⟨0, some 0, 1, some "and then".toList⟩,
        ⟨0, some 1, 2, some "Hello.".toList⟩] [] false).2.1
      ⟨"Speaker 1".toList, "Hello.".toList, true, none⟩ (by decide)⟩

theorem timestamp_eq_spec (s : Rat) : timestamp s = specTimestamp s := by
  unfold timestamp specTimestamp
  dsimp only
  have h1 : s - (⌊s / 3600⌋ : ℤ) * 3600 = s - 3600 * (⌊s / 3600⌋ : ℤ) := by
    ring
  rw [h1]
  have h2 : s - 3600 * ((⌊s / 3600⌋ : ℤ) : Rat) -
      (⌊(s - 3600 * ((⌊s / 3600⌋ : ℤ) : Rat)) / 60⌋ : ℤ) * 60 =
      s - 3600 * ((⌊s / 3600⌋ : ℤ) : Rat) -
      60 * (⌊(s - 3600 * ((⌊s / 3600⌋ : ℤ) : Rat)) / 60⌋ : ℤ) := by
    ring
  rw [h2]

/-- Claim C8: when `includeTimestamps` is true the emitted record carries
`Timestamp = some (HH:MM:SS)` computed by flooring hours, minutes and
seconds of the segment's start time, each zero-padded to two digits;
when it is false (the default) the field is absent (`none`). -/
theorem timestampField_spec (us : List Utt) (i : Nat) (u : Utt)
    (r1 r2 : TurnRecord) (hu : (sortedUtts us)[i]? = some u)
    (_h0 : 0 ≤ u.start)
    (h1 : (jsonUtt us true)[i]? = some r1)
    (h2 : (jsonUtt us false)[i]? = some r2) :
    r1.Timestamp = some (specTimestamp u.start) ∧ r2.Timestamp = none := by
  unfold jsonUtt at h1 h2
  rw [emitResults_getElem?, List.getElem?_map, hu] at h1 h2
  simp only [Option.map_some'] at h1 h2
  constructor
  · rw [← Option.some.inj h1]
    show some (timestamp u.start) = some (specTimestamp u.start)
    rw [timestamp_eq_spec]
  · rw [← Option.some.inj h2]
    rfl

/-- Concrete instantiation of `timestampField_spec` at a segment with
start time 0. -/
theorem timestampField_witness :
    ((sortedUtts [⟨0, some 0, 0, some "Hi.".toList⟩])[0]? =
        some ⟨0, some 0, 0, some "Hi.".toList⟩ ∧ (0 : Rat) ≤ 0) ∧
    (⟨"Speaker 0".toList, "Hi.".toList, true, some (timestamp 0)⟩ :
        TurnRecord).Timestamp = some (specTimestamp 0) ∧
    (⟨"Speaker 0".toList, "Hi.".toList, true, none⟩ :
        TurnRecord).Timestamp = none :=
  ⟨⟨by decide, by decide⟩,
    (timestampField_spec [⟨0, some 0, 0, some "Hi.".toList⟩] 0
      ⟨0, some 0, 0, some "Hi.".toList⟩
      ⟨"Speaker 0".toList, "Hi.".toList, true, some (timestamp 0)⟩
      ⟨"Speaker 0".toList, "Hi.".toList, true, none⟩
      (by decide) (by decide) rfl rfl).1,
    (timestampField_spec [⟨0, some 0, 0, some "Hi.".toList⟩] 0
      ⟨0, some 0, 0, some "Hi.".toList⟩
      ⟨"Speaker 0".toList, "Hi.".toList, true, some (timestamp 0)⟩
      ⟨"Speaker 0".toList, "Hi.".toList, true, none⟩
      (by decide) (by decide) rfl rfl).2⟩

theorem insertionSort_filter_stable {α : Type} (r : α → α → Prop)
    [DecidableRel r] [IsTotal α r] [IsTrans α r] (l : List α) (p : α → Bool)
    (hp : ∀ a b, p a = true → p b = true → r a b) :
    (List.insertionSort r l).filter p = l.filter p := by
  have hpair : (l.filter p).Pairwise r := by
    apply List.pairwise_of_forall_mem_list
    intro a ha b hb
    exact hp a b (List.mem_filter.mp ha).2 (List.mem_filter.mp hb).2
  have hsub : List.Sublist (l.filter p) (List.insertionSort r l) :=
    List.sublist_insertionSort hpair (List.filter_sublist l)
  have hsub2 : List.Sublist (l.filter p)
      ((List.insertionSort r l).filter p) := by
    have h3 := hsub.filter p
    rwa [List.filter_eq_self.mpr
      (fun a ha => (List.mem_filter.mp ha).2)] at h3
  have hperm : List.Perm ((List.insertionSort r l).filter p)
      (l.filter p) :=
    (List.perm_insertionSort r l).filter p
  exact (hsub2.eq_of_length hperm.length_eq.symm).symm

/-- Claim C5: in both paths, the segment stream is sorted by ascending
start time before records are emitted (so for positions i < j the start
at i is at most the start at j); segments with equal start times keep
the relative order in which the extractor produced them; and the record
at each position is built from the sorted segment at that position. -/
theorem chronological_spec (us : List Utt) (channels : List (List Para))
    (ts : Bool) :
    ((∀ i j (hi : i < (sortedUtts us).length)
        (hj : j < (sortedUtts us).length), i < j →
        ((sortedUtts us).get ⟨i, hi⟩).start ≤
          ((sortedUtts us).get ⟨j, hj⟩).start) ∧
      (∀ s : Rat, (sortedUtts us).filter (fun u => u.start == s) =
        us.filter (fun u => u.start == s)) ∧
      (∀ i : Nat, ((jsonUtt us ts)[i]?).map TurnRecord.Content =
        ((sortedUtts us)[i]?).map fun u : Utt => u.transcript.getD [])) ∧
    ((∀ i j (hi : i < (sortedParas channels).length)
        (hj : j < (sortedParas channels).length), i < j →
        ((sortedParas channels).get ⟨i, hi⟩).para.start ≤
          ((sortedParas channels).get ⟨j, hj⟩).para.start) ∧
      (∀ s : Rat, (sortedParas channels).filter
          (fun p => p.para.start == s) =
        (joinedParagraphs channels).filter (fun p => p.para.start == s)) ∧
      (∀ i : Nat, ((jsonPara channels ts)[i]?).map TurnRecord.Content =
        ((sortedParas channels)[i]?).map fun p : ParaC => paraContent p.para)) := by
  refine ⟨⟨?_, ?_, ?_⟩, ?_, ?_, ?_⟩
  · intro i j hi hj hij
    exact (List.sorted_insertionSort uttLe us).rel_get_of_lt
      (Fin.mk_lt_mk.mpr hij)
  · intro s
    apply insertionSort_filter_stable
    intro a b ha hb
    show a.start ≤ b.start
    rw [beq_iff_eq] at ha hb
    rw [ha, hb]
  · intro i
    unfold jsonUtt
    rw [emitResults_getElem?, List.getElem?_map]
    cases (sortedUtts us)[i]? <;> rfl
  · intro i j hi hj hij
    exact (List.sorted_insertionSort paraLe _).rel_get_of_lt
      (Fin.mk_lt_mk.mpr hij)
  · intro s
    apply insertionSort_filter_stable
    intro a b ha hb
    show a.para.start ≤ b.para.start
    rw [beq_iff_eq] at ha hb
    rw [ha, hb]
  · intro i
    unfold jsonPara
    rw [emitResults_getElem?, List.getElem?_map]
    cases (sortedParas channels)[i]? <;> rfl

/-- Concrete instantiation of `chronological_spec`: an input delivered
out of order, with a start-time tie across channels. -/
theorem chronological_witness :
    ((0 : Nat) < 1 ∧
      ((sortedUtts [⟨0, some 0, 7, none⟩, ⟨1, some 0, 5, none⟩,
          ⟨2, some 1, 5, none⟩]).get ⟨0, by decide⟩).start ≤
        ((sortedUtts [⟨0, some 0, 7, none⟩, ⟨1, some 0, 5, none⟩,
          ⟨2, some 1, 5, none⟩]).get ⟨1, by decide⟩).start) ∧
    (sortedUtts [⟨0, some 0, 7, none⟩, ⟨1, some 0, 5, none⟩,
        ⟨2, some 1, 5, none⟩]).filter (fun u => u.start == 5) =
      [⟨0, some 0, 7, none⟩, ⟨1, some 0, 5, none⟩,
        ⟨2, some 1, 5, none⟩].filter (fun u => u.start == 5) :=
  ⟨⟨by decide,
    (chronological_spec [⟨0, some 0, 7, none⟩, ⟨1, some 0, 5, none⟩,
        ⟨2, some 1, 5, none⟩] [] false).1.1 0 1 (by decide) (by decide)
      (by decide)⟩,
    (chronological_spec [⟨0, some 0, 7, none⟩, ⟨1, some 0, 5, none⟩,
        ⟨2, some 1, 5, none⟩] [] false).1.2.1 5⟩

theorem lookupId_isSome (m : List (List Char × Nat)) (k : List Char) :
    (lookupId m k).isSome = true ↔ k ∈ m.map Prod.fst := by
  induction m with
  | nil => simp [lookupId]
  | cons e m ih =>
    by_cases h : e.1 = k
    · simp [lookupId, h]
    · simp only [lookupId, if_neg h, List.map_cons, List.mem_cons, ih]
      constructor
      · exact Or.inr
      · rintro (h2 | h2)
        · exact absurd h2.symm h
        · exact h2

theorem firstOccAux_congr (s1 s2 ks : List (List Char))
    (h : ∀ x, x ∈ s1 ↔ x ∈ s2) :
    firstOccAux s1 ks = firstOccAux s2 ks := by
  induction ks generalizing s1 s2 with
  | nil => rfl
  | cons k ks ih =>
    unfold firstOccAux
    by_cases hk : k ∈ s1
    · rw [if_pos hk, if_pos ((h k).mp hk)]
      exact ih s1 s2 h
    · rw [if_neg hk, if_neg (fun hh => hk ((h k).mpr hh))]
      refine congrArg (k :: ·) (ih _ _ ?_)
      intro x
      simp only [List.mem_cons]
      exact or_congr Iff.rfl (h x)

theorem buildMap_go_fst (ks : List (List Char)) :
    ∀ m : List (List Char × Nat),
      (ks.foldl (fun m k =>
          if (lookupId m k).isSome then m else m ++ [(k, m.length)]) m).map
        Prod.fst = m.map Prod.fst ++ firstOccAux (m.map Prod.fst) ks := by
  induction ks with
  | nil => intro m; simp [firstOccAux]
  | cons k ks ih =>
    intro m
    rw [List.foldl_cons]
    by_cases h : (lookupId m k).isSome = true
    · rw [if_pos h]
      unfold firstOccAux
      rw [if_pos ((lookupId_isSome m k).mp h), ih]
    · rw [if_neg h]
      unfold firstOccAux
      rw [if_neg (fun hm => h ((lookupId_isSome m k).mpr hm)), ih]
      have hfst : (m ++ [(k, m.length)]).map Prod.fst =
          m.map Prod.fst ++ [k] := by simp
      rw [hfst, List.append_assoc]
      refine congrArg (m.map Prod.fst ++ ·) ?_
      show k :: firstOccAux (m.map Prod.fst ++ [k]) ks =
        k :: firstOccAux (k :: m.map Prod.fst) ks
      refine congrArg (k :: ·) ?_
      apply firstOccAux_congr
      intro x
      simp [List.mem_append, List.mem_cons, or_comm]

theorem buildMap_fst (ks : List (List Char)) :
    (buildMap ks).map Prod.fst = firstOcc ks := by
  unfold buildMap firstOcc
  rw [buildMap_go_fst ks []]
  rfl

theorem buildMap_go_snd (ks : List (List Char)) :
    ∀ m : List (List Char × Nat), m.map Prod.snd = List.range m.length →
      (ks.foldl (fun m k =>
          if (lookupId m k).isSome then m else m ++ [(k, m.length)]) m).map
        Prod.snd =
      List.range (ks.foldl (fun m k =>
          if (lookupId m k).isSome then m else m ++ [(k, m.length)]) m).length := by
  induction ks with
  | nil => intro m hm; exact hm
  | cons k ks ih =>
    intro m hm
    rw [List.foldl_cons]
    by_cases h : (lookupId m k).isSome = true
    · rw [if_pos h]
      exact ih m hm
    · rw [if_neg h]
      apply ih
      simp only [List.map_append, List.length_append, hm]
      simp [List.range_succ]

theorem buildMap_snd (ks : List (List Char)) :
    (buildMap ks).map Prod.snd = List.range (buildMap ks).length := by
  unfold buildMap
  exact buildMap_go_snd ks [] rfl

theorem mem_firstOccAux (x : List Char) :
    ∀ ks seen, x ∈ firstOccAux seen ks ↔ x ∈ ks ∧ x ∉ seen := by
  intro ks
  induction ks with
  | nil => intro seen; simp [firstOccAux]
  | cons k ks ih =>
    intro seen
    unfold firstOccAux
    by_cases hk : k ∈ seen
    · rw [if_pos hk, ih]
      constructor
      · rintro ⟨h1, h2⟩
        exact ⟨List.mem_cons_of_mem k h1, h2⟩
      · rintro ⟨h1, h2⟩
        rcases List.mem_cons.mp h1 with rfl | h1
        · exact absurd hk h2
        · exact ⟨h1, h2⟩
    · rw [if_neg hk]
      constructor
      · intro hm
        rcases List.mem_cons.mp hm with rfl | hm
        · exact ⟨List.mem_cons_self _ _, hk⟩
        · obtain ⟨h1, h2⟩ := (ih (k :: seen)).mp hm
          exact ⟨List.mem_cons_of_mem k h1,
            fun hs => h2 (List.mem_cons_of_mem k hs)⟩
      · rintro ⟨h1, h2⟩
        rcases List.mem_cons.mp h1 with rfl | h1
        · exact List.mem_cons_self x _
        · by_cases hxk : x = k
          · exact hxk ▸ List.mem_cons_self k _
          · refine List.mem_cons_of_mem k ((ih (k :: seen)).mpr ⟨h1, ?_⟩)
            intro hs
            rcases List.mem_cons.mp hs with h3 | h3
            · exact hxk h3
            · exact h2 h3

theorem mem_firstOcc (x : List Char) (ks : List (List Char)) :
    x ∈ firstOcc ks ↔ x ∈ ks := by
  unfold firstOcc
  rw [mem_firstOccAux]
  simp

theorem firstOccAux_nodup :
    ∀ ks seen : List (List Char), (firstOccAux seen ks).Nodup := by
  intro ks
  induction ks with
  | nil => intro seen; exact List.nodup_nil
  | cons k ks ih =>
    intro seen
    unfold firstOccAux
    by_cases hk : k ∈ seen
    · rw [if_pos hk]; exact ih seen
    · rw [if_neg hk]
      refine List.nodup_cons.mpr ⟨?_, ih (k :: seen)⟩
      intro hm
      exact ((mem_firstOccAux k ks (k :: seen)).mp hm).2
        (List.mem_cons_self k seen)

theorem firstOcc_nodup (ks : List (List Char)) : (firstOcc ks).Nodup :=
  firstOccAux_nodup ks []

theorem lookupId_mem (m : List (List Char × Nat)) (k : List Char) (v : Nat)
    (h : lookupId m k = some v) : (k, v) ∈ m := by
  induction m with
  | nil => cases h
  | cons e m ih =>
    unfold lookupId at h
    by_cases he : e.1 = k
    · rw [if_pos he] at h
      obtain ⟨a, b⟩ := e
      obtain rfl : a = k := he
      obtain rfl : b = v := Option.some.inj h
      exact List.mem_cons_self _ _
    · rw [if_neg he] at h
      exact List.mem_cons_of_mem e (ih h)

theorem lookupId_get (m : List (List Char × Nat))
    (hn : (m.map Prod.fst).Nodup) (j : Nat) (hj : j < m.length) :
    lookupId m (m.get ⟨j, hj⟩).1 = some (m.get ⟨j, hj⟩).2 := by
  induction m generalizing j with
  | nil => cases hj
  | cons e m ih =>
    have hn3 : (e.1 :: m.map Prod.fst).Nodup := by
      rw [List.map_cons] at hn; exact hn
    have hn2 := List.nodup_cons.mp hn3
    cases j with
    | zero =>
      show (if e.1 = e.1 then some e.2 else lookupId m e.1) = some e.2
      rw [if_pos rfl]
    | succ j =>
      have hj2 : j < m.length := Nat.lt_of_succ_lt_succ hj
      have hmem : (m.get ⟨j, hj2⟩).1 ∈ m.map Prod.fst :=
        List.mem_map_of_mem Prod.fst (List.get_mem m j hj2)
      have hne : ¬ e.1 = (m.get ⟨j, hj2⟩).1 := fun he => hn2.1 (he ▸ hmem)
      show (if e.1 = (m.get ⟨j, hj2⟩).1 then some e.2
        else lookupId m (m.get ⟨j, hj2⟩).1) = some (m.get ⟨j, hj2⟩).2
      rw [if_neg hne]
      exact ih hn2.2 j hj2

theorem lookup_buildMap (ks : List (List Char)) (mIdx : Nat) (k : List Char)
    (h : (firstOcc ks)[mIdx]? = some k) :
    lookupId (buildMap ks) k = some mIdx := by
  obtain ⟨hlt0, hget⟩ := List.getElem?_eq_some_iff.mp h
  have hlenfst : (buildMap ks).length = (firstOcc ks).length := by
    rw [← buildMap_fst, List.length_map]
  have hlt : mIdx < (buildMap ks).length := by rw [hlenfst]; exact hlt0
  have hfst : ((buildMap ks).get ⟨mIdx, hlt⟩).1 = k := by
    have := congrArg (fun l => l[mIdx]?) (buildMap_fst ks)
    simp only [List.getElem?_map] at this
    rw [h, List.getElem?_eq_getElem hlt] at this
    simpa using (Option.some.inj this)
  have hsnd : ((buildMap ks).get ⟨mIdx, hlt⟩).2 = mIdx := by
    have := congrArg (fun l => l[mIdx]?) (buildMap_snd ks)
    simp only [List.getElem?_map] at this
    rw [List.getElem?_eq_getElem hlt,
      List.getElem?_eq_getElem (by rw [List.length_range]; exact hlt)] at this
    have h2 := Option.some.inj this
    simpa using h2
  have hnodup : ((buildMap ks).map Prod.fst).Nodup := by
    rw [buildMap_fst]; exact firstOcc_nodup ks
  have := lookupId_get (buildMap ks) hnodup mIdx hlt
  rw [hfst, hsnd] at this
  exact this

theorem natChars_ne_underscore {n : Nat} {c : Char} (h : c ∈ natChars n) :
    c ≠ '_' := by
  intro he
  exact absurd (natChars_digits h) (by rw [he]; decide)

theorem keyOf_inj {c1 s1 c2 s2 : Nat} (h : keyOf c1 s1 = keyOf c2 s2) :
    c1 = c2 ∧ s1 = s2 := by
  unfold keyOf at h
  obtain ⟨h1, h2⟩ := append_sep_inj (fun c hc => natChars_ne_underscore hc)
    (fun c hc => natChars_ne_underscore hc) h
  exact ⟨natChars_injective h1, natChars_injective h2⟩

theorem emitResults_roles (segs : List (SpkV × List Char × Rat)) (ts : Bool) :
    (emitResults segs ts).map TurnRecord.Role =
      segs.map fun seg => roleChars seg.1 := by
  apply List.ext_getElem?
  intro i
  rw [List.getElem?_map, List.getElem?_map, emitResults_getElem?]
  cases segs[i]? <;> rfl

theorem lookupId_mem_snd {m : List (List Char × Nat)} {k : List Char}
    {v : Nat} (h : lookupId m k = some v) : v ∈ m.map Prod.snd :=
  List.mem_map_of_mem Prod.snd (lookupId_mem m k v h)

theorem labeledKeys_filter (l : List Utt) :
    labeledKeys (l.filter fun u => u.speaker.isSome) = labeledKeys l := by
  induction l with
  | nil => rfl
  | cons u l ih =>
    show labeledKeys (List.filter _ (u :: l)) = _
    rw [List.filter_cons]
    cases hs : u.speaker with
    | none =>
      rw [if_neg (by simp)]
      show labeledKeys _ = List.filterMap _ (u :: l)
      rw [List.filterMap_cons]
      simp only [hs, Option.map_none']
      exact ih
    | some s =>
      rw [if_pos (by simp)]
      show List.filterMap _ (u :: List.filter _ l) =
        List.filterMap _ (u :: l)
      rw [List.filterMap_cons, List.filterMap_cons]
      simp only [hs, Option.map_some']
      exact congrArg (keyOf u.channel s :: ·) ih

/-- Claim C3 is refuted on the paragraph fallback: a paragraph with no
speaker label is keyed as `channel_undefined`, consumes speaker ID 0 and
is emitted with the numeric role `Speaker 0` — not `Speaker Unknown` —
and pushes the labeled speaker to ID 1. -/
theorem unknownSpeaker_counterexample :
    (jsonPara [[⟨1, none, []⟩, ⟨2, some 7, []⟩]] false).map
        TurnRecord.Role = ["Speaker 0".toList, "Speaker 1".toList] ∧
    "Speaker Unknown".toList ∉
      (jsonPara [[⟨1, none, []⟩, ⟨2, some 7, []⟩]] false).map
        TurnRecord.Role := by
  exact ⟨by decide, by decide⟩

/-- Claim C3 (amended): in the utterance path, a segment whose speaker
label is absent is emitted with the literal role `Speaker Unknown`, and
the speaker-ID map is built from labeled segments only (removing the
unlabeled segments leaves the key stream unchanged).  In the paragraph
fallback, by contrast, an absent label is stringified into the key
`channel_undefined`, consumes a numeric ID and yields a numeric role. -/
theorem unknownSpeaker_amended (us : List Utt) (ts : Bool) :
    (∀ (i : Nat) (u : Utt), (sortedUtts us)[i]? = some u →
      u.speaker = none →
      ((jsonUtt us ts)[i]?).map TurnRecord.Role =
        some ("Speaker Unknown".toList)) ∧
    labeledKeys ((sortedUtts us).filter fun u => u.speaker.isSome) =
      labeledKeys (sortedUtts us) := by
  constructor
  · intro i u hu hn
    unfold jsonUtt
    rw [emitResults_getElem?, List.getElem?_map, hu]
    simp only [Option.map_some']
    show some (roleChars (resolveSpk (uttMap us) u)) = _
    unfold resolveSpk
    rw [hn]
    show some (roleChars SpkV.unknown) = some ("Speaker Unknown".toList)
    rfl
  · exact labeledKeys_filter (sortedUtts us)

/-- Concrete instantiation of the amended claim C3: an unlabeled
utterance is emitted with role `Speaker Unknown`. -/
theorem unknownSpeaker_witness :
    ((sortedUtts [⟨0, none, 1, some "Hi.".toList⟩])[0]? =
        some ⟨0, none, 1, some "Hi.".toList⟩ ∧
      (⟨0, none, 1, some "Hi.".toList⟩ : Utt).speaker = none) ∧
    ((jsonUtt [⟨0, none, 1, some "Hi.".toList⟩] false)[0]?).map
        TurnRecord.Role = some ("Speaker Unknown".toList) :=
  ⟨⟨by decide, rfl⟩,
    (unknownSpeaker_amended [⟨0, none, 1, some "Hi.".toList⟩] false).1 0
      ⟨0, none, 1, some "Hi.".toList⟩ (by decide) rfl⟩

/-- Claim C6 is refuted on the paragraph fallback: with one unlabeled and
one labeled paragraph there is exactly one distinct labeled SpeakerKey,
yet the numeric ID 1 appears in the output roles (the unlabeled
paragraph consumed ID 0), so the ID set is not `{0}`. -/
theorem speakerDensity_counterexample :
    (firstOcc ((sortedParas [[⟨1, none, []⟩, ⟨2, some 0, []⟩]]).filterMap
        fun p => p.para.speaker.map fun s => keyOf p.channel s)).length =
      1 ∧
    "Speaker 1".toList ∈
      (jsonPara [[⟨1, none, []⟩, ⟨2, some 0, []⟩]] false).map
        TurnRecord.Role := by
  exact ⟨by decide, by decide⟩

/-- Claim C6 (amended): in the utterance path, the m-th distinct labeled
key of the time-sorted stream (first-appearance order) is mapped to ID
m; the numeric IDs appearing in output roles are exactly
`{0, ..., k-1}` for `k` the number of distinct labeled keys; and keys
with equal labels on different channels (distinct key pairs generally)
receive distinct IDs.  In the paragraph fallback the same holds only
with unlabeled paragraphs counted via their `channel_undefined`
pseudo-keys. -/
theorem speakerDensity_amended (us : List Utt) (ts : Bool) :
    (∀ (mIdx : Nat) (key : List Char),
      (firstOcc (labeledKeys (sortedUtts us)))[mIdx]? = some key →
        lookupId (uttMap us) key = some mIdx) ∧
    (∀ n : Nat,
      roleChars (SpkV.num n) ∈ (jsonUtt us ts).map TurnRecord.Role ↔
        n < (firstOcc (labeledKeys (sortedUtts us))).length) ∧
    (∀ c1 s1 c2 s2 i1 i2 : Nat, (c1, s1) ≠ (c2, s2) →
      lookupId (uttMap us) (keyOf c1 s1) = some i1 →
      lookupId (uttMap us) (keyOf c2 s2) = some i2 → i1 ≠ i2) := by
  have hroles : (jsonUtt us ts).map TurnRecord.Role =
      (sortedUtts us).map fun u => roleChars (resolveSpk (uttMap us) u) := by
    unfold jsonUtt
    rw [emitResults_roles, List.map_map]
    rfl
  have hlen : (uttMap us).length =
      (firstOcc (labeledKeys (sortedUtts us))).length := by
    show (buildMap (labeledKeys (sortedUtts us))).length = _
    rw [← buildMap_fst, List.length_map]
  refine ⟨?_, ?_, ?_⟩
  · intro mIdx key h
    exact lookup_buildMap _ mIdx key h
  · intro n
    rw [hroles]
    constructor
    · intro hmem
      obtain ⟨u, hu, hr⟩ := List.mem_map.mp hmem
      have hspk : resolveSpk (uttMap us) u = SpkV.num n :=
        roleChars_injective hr
      unfold resolveSpk at hspk
      cases hs : u.speaker with
      | none => rw [hs] at hspk; cases hspk
      | some s =>
        rw [hs] at hspk
        have hspk2 : (match lookupId (uttMap us) (keyOf u.channel s) with
            | some j => SpkV.num j
            | none => SpkV.undefined) = SpkV.num n := hspk
        cases hl : lookupId (uttMap us) (keyOf u.channel s) with
        | none => rw [hl] at hspk2; cases hspk2
        | some j =>
          rw [hl] at hspk2
          have hj : j = n := by cases hspk2; rfl
          subst hj
          have hmem2 : j ∈ (uttMap us).map Prod.snd := lookupId_mem_snd hl
          have hsnd : (uttMap us).map Prod.snd =
              List.range (uttMap us).length := buildMap_snd _
          rw [hsnd, List.mem_range, hlen] at hmem2
          exact hmem2
    · intro hn
      have hk : ∃ key, (firstOcc (labeledKeys (sortedUtts us)))[n]? =
          some key :=
        ⟨_, List.getElem?_eq_getElem hn⟩
      obtain ⟨key, hkey⟩ := hk
      have hlook : lookupId (uttMap us) key = some n :=
        lookup_buildMap _ n key hkey
      have hmemk : key ∈ labeledKeys (sortedUtts us) := by
        rw [← mem_firstOcc]
        exact List.getElem?_mem hkey
      obtain ⟨u, hu, hf⟩ := List.mem_filterMap.mp hmemk
      obtain ⟨s, hs, hks⟩ := Option.map_eq_some'.mp hf
      refine List.mem_map.mpr ⟨u, hu, ?_⟩
      unfold resolveSpk
      rw [hs]
      show roleChars (match lookupId (uttMap us) (keyOf u.channel s) with
        | some j => SpkV.num j
        | none => SpkV.undefined) = roleChars (SpkV.num n)
      rw [hks, hlook]
  · intro c1 s1 c2 s2 i1 i2 hne h1 h2 heq
    subst heq
    have hm1 := lookupId_mem _ _ _ h1
    have hm2 := lookupId_mem _ _ _ h2
    have hnodup : ((uttMap us).map Prod.snd).Nodup := by
      have h5 : ((buildMap (labeledKeys (sortedUtts us))).map
          Prod.snd).Nodup := by
        rw [buildMap_snd]
        exact List.nodup_range _
      exact h5
    have hpair := List.inj_on_of_nodup_map hnodup hm1 hm2 rfl
    have hkeys : keyOf c1 s1 = keyOf c2 s2 := congrArg Prod.fst hpair
    obtain ⟨hc, hs⟩ := keyOf_inj hkeys
    exact hne (by rw [hc, hs])

/-- Concrete instantiation of the amended claim C6: two channels with the
same label give two distinct dense IDs, assigned by first appearance. -/
theorem speakerDensity_witness :
    ((firstOcc (labeledKeys (sortedUtts
        [⟨0, some 3, 1, none⟩, ⟨1, some 3, 2, none⟩])))[0]? =
      some (keyOf 0 3)) ∧
    lookupId (uttMap [⟨0, some 3, 1, none⟩, ⟨1, some 3, 2, none⟩])
        (keyOf 0 3) = some 0 ∧
    (roleChars (SpkV.num 1) ∈
        (jsonUtt [⟨0, some 3, 1, none⟩, ⟨1, some 3, 2, none⟩]
          false).map TurnRecord.Role ↔
      1 < (firstOcc (labeledKeys (sortedUtts
        [⟨0, some 3, 1, none⟩, ⟨1, some 3, 2, none⟩]))).length) ∧
    ((0 : Nat), (3 : Nat)) ≠ ((1 : Nat), (3 : Nat)) ∧ (0 : Nat) ≠ 1 :=
  ⟨by decide,
    (speakerDensity_amended [⟨0, some 3, 1, none⟩, ⟨1, some 3, 2, none⟩]
      false).1 0 (keyOf 0 3) (by decide),
    (speakerDensity_amended [⟨0, some 3, 1, none⟩, ⟨1, some 3, 2, none⟩]
      false).2.1 1,
    by decide,
    (speakerDensity_amended [⟨0, some 3, 1, none⟩, ⟨1, some 3, 2, none⟩]
      false).2.2 0 3 1 3 0 1 (by decide) (by decide) (by decide)⟩

/-- Claim C2 is refuted: a paragraph that lacks its `sentences` list
makes `PostProcess.json` raise a TypeError (`p.sentences.map` on
`undefined`, `postprocessing.js` line 175) instead of degrading to an
empty document. -/
theorem gracefulDegradation_counterexample :
    isError (json (JVal.jobj [("results".toList, JVal.jobj
      [("channels".toList, JVal.jarr [JVal.jobj [("alternatives".toList,
        JVal.jarr [JVal.jobj [("paragraphs".toList, JVal.jobj
          [("paragraphs".toList, JVal.jarr [JVal.jobj
            [("start".toList, JVal.jnum 0)]])])]])]])])]) false) =
      true := rfl

/-- Claim C2 (amended): `PostProcess.json` degrades to the empty document
without raising for absent or malformed input at the container level —
null, undefined, `{}`, `{results:{}}`, `{results:{channels:[]}}`, a
non-array `channels`, and a channel missing all sub-fields — but a
paragraph lacking its `sentences` list raises a TypeError (see the
counterexample). -/
theorem gracefulDegradation_amended :
    json JVal.jnull false = .ok ([], JVal.jnull) ∧
    json JVal.undefined false = .ok ([], JVal.undefined) ∧
    json (JVal.jobj []) false = .ok ([], JVal.jobj []) ∧
    json (JVal.jobj [("results".toList, JVal.jobj [])]) false =
      .ok ([], JVal.jobj [("results".toList, JVal.jobj [])]) ∧
    json (JVal.jobj [("results".toList, JVal.jobj [("channels".toList,
        JVal.jarr [])])]) false =
      .ok ([], JVal.jobj [("results".toList, JVal.jobj
        [("channels".toList, JVal.jarr [])])]) ∧
    json (JVal.jobj [("results".toList, JVal.jobj [("channels".toList,
        JVal.jnum 5)])]) false =
      .ok ([], JVal.jobj [("results".toList, JVal.jobj
        [("channels".toList, JVal.jnum 5)])]) ∧
    json (JVal.jobj [("results".toList, JVal.jobj [("channels".toList,
        JVal.jarr [JVal.jobj []])])]) false =
      .ok ([], JVal.jobj [("results".toList, JVal.jobj
        [("channels".toList, JVal.jarr [JVal.jobj []])])]) :=
  ⟨rfl, rfl, rfl, rfl, rfl, rfl, rfl⟩

theorem setAssoc_self (fs : List (List Char × JVal)) (k : List Char)
    (v : JVal) (h : lookupField fs k = some v) : setAssoc fs k v = fs := by
  induction fs with
  | nil => cases h
  | cons e fs ih =>
    obtain ⟨a, b⟩ := e
    unfold lookupField at h
    unfold setAssoc
    by_cases he : a = k
    · rw [if_pos he] at h
      rw [if_pos he, ← Option.some.inj h]
    · rw [if_neg he] at h
      rw [if_neg he, ih h]

/-- Claim C7 is refuted: `utterances.sort` sorts the caller's array in
place, so an input whose utterances arrive out of order is mutated by
the call (here starts `[2, 1]` become `[1, 2]`), even though the call
succeeds. -/
theorem jsonPure_counterexample :
    uttStartsOf (JVal.jobj [("results".toList, JVal.jobj
      [("utterances".toList, JVal.jarr [
        JVal.jobj [("channel".toList, JVal.jnum 0),
          ("speaker".toList, JVal.jnum 0), ("start".toList, JVal.jnum 2),
          ("transcript".toList, JVal.jstr "B.".toList)],
        JVal.jobj [("channel".toList, JVal.jnum 0),
          ("speaker".toList, JVal.jnum 1), ("start".toList, JVal.jnum 1),
          ("transcript".toList, JVal.jstr "A.".toList)]])])]) = [2, 1] ∧
    uttStartsOf (postData (json (JVal.jobj [("results".toList, JVal.jobj
      [("utterances".toList, JVal.jarr [
        JVal.jobj [("channel".toList, JVal.jnum 0),
          ("speaker".toList, JVal.jnum 0), ("start".toList, JVal.jnum 2),
          ("transcript".toList, JVal.jstr "B.".toList)],
        JVal.jobj [("channel".toList, JVal.jnum 0),
          ("speaker".toList, JVal.jnum 1), ("start".toList, JVal.jnum 1),
          ("transcript".toList, JVal.jstr "A.".toList)]])])]) false)) =
      [1, 2] ∧
    ([2, 1] : List Rat) ≠ [1, 2] := by
  exact ⟨by decide, by decide, by decide⟩

/-- Claim C7 (amended): `PostProcess.json` keeps no state across calls
and its output depends only on the input value, but it is not free of
side effects on its argument: `data.results.utterances` is sorted in
place.  Whenever that array is already sorted by start time (and on
every input that does not reach the sort), a successful call leaves the
input unchanged. -/
theorem jsonPure_amended (data : JVal) (ts : Bool)
    (hs : ∀ xs, getF (getF data "results".toList) "utterances".toList =
      JVal.jarr xs → List.Pairwise jvLe xs) :
    ∀ rs d2, json data ts = .ok (rs, d2) → d2 = data := by
  intro rs d2 h
  unfold json at h
  by_cases ht : truthy (optF data "results".toList) = false
  · rw [if_pos ht] at h
    exact (congrArg Prod.snd (Except.ok.inj h)).symm
  · rw [if_neg ht] at h
    dsimp only at h
    have hfb : ∀ _ : Except.map (fun rs2 => (rs2, data))
        (jsonScriptFromParagraphs data ts) = Except.ok (rs, d2),
        d2 = data := by
      intro h2
      cases hps : jsonScriptFromParagraphs data ts with
      | error e =>
        rw [hps] at h2
        simp [Except.map] at h2
      | ok rs2 =>
        rw [hps] at h2
        simp only [Except.map] at h2
        exact (congrArg Prod.snd (Except.ok.inj h2)).symm
    by_cases htr : truthy (getF (getF data "results".toList)
        "utterances".toList) = true
    · rw [if_pos htr] at h
      split at h
      · exact hfb h
      · split at h
        · rename_i xs heq
          have hxs : jvSort xs = xs :=
            List.Sorted.insertionSort_eq (hs xs heq)
          cases hdo : (do
              let m ← buildMapJ (jvSort xs)
              (jvSort xs).enum.mapM fun iu =>
                jvRecord m (jvSort xs) ts iu.1 iu.2 :
              Except JsErr (List TurnRecord)) with
          | error e =>
            rw [hdo] at h
            simp [Except.map] at h
          | ok rs2 =>
            rw [hdo] at h
            simp only [Except.map] at h
            have hd2 : setUtts data (.jarr (jvSort xs)) = d2 :=
              congrArg Prod.snd (Except.ok.inj h)
            rw [← hd2, hxs]
            cases data with
            | jobj fs =>
              have hres : ∃ r, lookupField fs "results".toList = some r := by
                cases hlr : lookupField fs "results".toList with
                | none =>
                  exfalso
                  apply ht
                  show truthy ((lookupField fs "results".toList).getD
                    JVal.undefined) = false
                  rw [hlr]
                  rfl
                | some r => exact ⟨r, rfl⟩
              obtain ⟨r, hlr⟩ := hres
              have hgf : getF (JVal.jobj fs) "results".toList = r := by
                show (lookupField fs "results".toList).getD JVal.undefined = r
                rw [hlr]
                rfl
              rw [hgf] at heq
              cases r with
              | jobj gs =>
                have hlg : lookupField gs "utterances".toList =
                    some (JVal.jarr xs) := by
                  cases hlg2 : lookupField gs "utterances".toList with
                  | none =>
                    exfalso
                    have heq2 : ((lookupField gs "utterances".toList).getD
                      JVal.undefined) = JVal.jarr xs := heq
                    rw [hlg2] at heq2
                    cases heq2
                  | some w =>
                    have heq2 : ((lookupField gs "utterances".toList).getD
                      JVal.undefined) = JVal.jarr xs := heq
                    rw [hlg2] at heq2
                    have heq3 : w = JVal.jarr xs := heq2
                    exact congrArg some heq3
                show JVal.jobj (setAssoc fs "results".toList
                  (match (lookupField fs "results".toList).getD JVal.undefined with
                   | JVal.jobj gs2 => JVal.jobj (setAssoc gs2
                       "utterances".toList (JVal.jarr xs))
                   | r => r)) = JVal.jobj fs
                rw [hlr]
                show JVal.jobj (setAssoc fs "results".toList
                  (JVal.jobj (setAssoc gs "utterances".toList
                    (JVal.jarr xs)))) = JVal.jobj fs
                rw [setAssoc_self gs _ _ hlg, setAssoc_self fs _ _ hlr]
              | undefined => exact absurd heq fun hh => JVal.noConfusion hh
              | jnull => exact absurd heq fun hh => JVal.noConfusion hh
              | jbool b => exact absurd heq fun hh => JVal.noConfusion hh
              | jnum q => exact absurd heq fun hh => JVal.noConfusion hh
              | jstr s => exact absurd heq fun hh => JVal.noConfusion hh
              | jarr ys => exact absurd heq fun hh => JVal.noConfusion hh
            | undefined => exact absurd (by rfl) ht
            | jnull => exact absurd (by rfl) ht
            | jbool b => exact absurd (by rfl) ht
            | jnum q => exact absurd (by rfl) ht
            | jstr s => exact absurd (by rfl) ht
            | jarr ys => exact absurd (by rfl) ht
        · exact Except.noConfusion h
    · rw [if_neg htr] at h
      have hcond : (match lengthOf (JVal.jarr ([] : List JVal)) with
          | JVal.jnum q => q == 0
          | _ => false) = true := by decide
      rw [if_pos hcond] at h
      exact hfb h

/-- Concrete instantiation of the amended claim C7: on an already sorted
input the call succeeds and leaves the input unchanged. -/
theorem jsonPure_witness :
    (∀ xs, getF (getF dataJsorted "results".toList) "utterances".toList =
        JVal.jarr xs → List.Pairwise jvLe xs) ∧
    postData (json dataJsorted false) = dataJsorted := by
  have hypP : ∀ xs, getF (getF dataJsorted "results".toList)
      "utterances".toList = JVal.jarr xs → List.Pairwise jvLe xs := by
    intro xs hxs
    have h1 : JVal.jarr [uttJ1, uttJ2] = JVal.jarr xs :=
      (show getF (getF dataJsorted "results".toList) "utterances".toList =
        JVal.jarr [uttJ1, uttJ2] from rfl).symm.trans hxs
    rw [← JVal.jarr.inj h1]
    decide
  refine ⟨hypP, ?_⟩
  have h0 : json dataJsorted false =
      Except.ok (recsJsorted,
        setUtts dataJsorted (JVal.jarr (jvSort [uttJ1, uttJ2]))) := rfl
  rw [h0]
  show setUtts dataJsorted (JVal.jarr (jvSort [uttJ1, uttJ2])) = dataJsorted
  exact jsonPure_amended dataJsorted false hypP recsJsorted _ h0
